import Mathlib

/-!
Verification development for the Query_Optimizer repository.

Shallow embedding of the core subsystems:
* `table.h`      — values, rows, schemas, tables, the sample catalog
* `executor.cpp` — condition recognizer, scan/filter/project and the three
                   physical join operators
* `cost_model.cpp` / `cost_model.h` / `query_plan.h` — cost estimates and
                   output-cardinality estimation
* `optimizer.cpp` / `plan_builder.cpp` — candidate enumeration

Modelling conventions:
* C++ `double` arithmetic is modelled by exact rationals (`ℚ`).  Every
  numeric claim settled below holds with a margin that dwarfs any
  floating-point rounding of the constants involved.
* `std::log2` is the one transcendental the cost model uses; it is modelled
  by an explicit function parameter `l2 : ℕ → ℚ` constrained (where a claim
  needs it) by integer power-of-two bounds that the real `log2` satisfies.
* C++ exceptions are modelled by `Option`/`Except`; a `try { ... } catch`
  block that absorbs a row-level failure becomes a `match` on `Option`.
* Machine integers (`int`, `size_t`) are modelled by `ℤ`/`ℕ`; a `size_t`
  multiplication or addition that C++ evaluates before any conversion to
  `double` wraps modulo `2^64` and is modelled with an explicit
  `% SIZE_T_WRAP` at the same spot.
-/

set_option maxRecDepth 40000

namespace QueryOpt

/-- A cell value: the sample data stores only `int` and `std::string`
values inside `std::any` (`table.h`). -/
inductive Value where
  | vint (i : ℤ)
  | vstr (s : String)
deriving DecidableEq

/-- `Row` from `table.h`: an ordered sequence of values, no schema. -/
structure Row where
  values : List Value
deriving DecidableEq

/-- `Row::get<int>(index)` (`table.h`): throws `std::out_of_range` when the
index is out of range and `std::bad_any_cast` when the value is not an
`int`; both failure modes become `none`. -/
def Row.getInt (r : Row) (i : ℕ) : Option ℤ :=
  match r.values[i]? with
  | some (Value.vint n) => some n
  | _ => none

/-- `TableSchema` from `table.h`: parallel lists of column names and
column type tags. -/
structure TableSchema where
  column_names : List String
  column_types : List String
deriving DecidableEq

/-- `TableSchema::get_column_index` (`table.h`): index of the first column
with the given name; the `std::runtime_error` on a missing column becomes
`none`. -/
def TableSchema.get_column_index (s : TableSchema) (name : String) : Option ℕ :=
  go s.column_names
where
  go : List String → Option ℕ
    | [] => none
    | n :: ns => if n = name then some 0 else (go ns).map (· + 1)

/-- `Table` from `table.h` (its name is the catalog key, kept outside). -/
structure Table where
  schema : TableSchema
  rows : List Row
deriving DecidableEq

/-- The `TableManager` catalog: name → table, first binding wins. -/
def lookupTable : List (String × Table) → String → Option Table
  | [], _ => none
  | (n, t) :: rest, name => if n = name then some t else lookupTable rest name

/-! ### Sample data (`TableManager::populate_sample_data`, `table.h`) -/

/-- Schema of the `users` table. -/
def usersSchema : TableSchema :=
  ⟨["id", "name", "age", "city"], ["int", "string", "int", "string"]⟩

/-- Schema of the `orders` table (`table.h:135-139`). -/
def ordersSchema : TableSchema :=
  ⟨["id", "user_id", "product", "amount"], ["int", "int", "string", "int"]⟩

/-- The `users` row for loop index `i` (the C++ loop runs `i = 1..1000`). -/
def userRow (i : ℕ) : Row :=
  ⟨[Value.vint (i : ℤ),
    Value.vstr ("User" ++ toString i),
    Value.vint ((20 + i % 50 : ℕ) : ℤ),
    Value.vstr ("City" ++ toString (i % 10 + 1))]⟩

/-- The `orders` row for loop index `i` (the C++ loop runs `i = 1..5000`). -/
def orderRow (i : ℕ) : Row :=
  ⟨[Value.vint (i : ℤ),
    Value.vint ((i % 1000 + 1 : ℕ) : ℤ),
    Value.vstr ("Product" ++ toString (i % 100 + 1)),
    Value.vint ((10 + i % 500 : ℕ) : ℤ)]⟩

/-- The 1000 sample `users` rows, `id = 1..1000`. -/
def usersRows : List Row := (List.range 1000).map (fun j => userRow (j + 1))

/-- The 5000 sample `orders` rows, `id = 1..5000`, `user_id = id % 1000 + 1`. -/
def ordersRows : List Row := (List.range 5000).map (fun j => orderRow (j + 1))

/-- The catalog after `populate_sample_data()`. -/
def sampleCatalog : List (String × Table) :=
  [("users", ⟨usersSchema, usersRows⟩), ("orders", ⟨ordersSchema, ordersRows⟩)]

/-! ### `std::string` search primitives used by the recognizers -/

/-- Whether `needle` is a prefix of `hay` (character lists). -/
def prefixOfB : List Char → List Char → Bool
  | [], _ => true
  | _ :: _, [] => false
  | a :: as, b :: bs => a == b && prefixOfB as bs

/-- Whether `needle` occurs contiguously in `hay`:
`hay.find(needle) != std::string::npos`. -/
def infixOfB (needle : List Char) : List Char → Bool
  | [] => prefixOfB needle []
  | hay@(_ :: rest) => prefixOfB needle hay || infixOfB needle rest

/-- `condition.find(needle) != std::string::npos` on `String`s. -/
def hasSub (hay needle : String) : Bool := infixOfB needle.toList hay.toList

/-- The characters after the first occurrence of `needle`:
`hay.substr(hay.find(needle) + needle.size())`.  `none` when `needle`
does not occur. -/
def afterFirst (needle : List Char) : List Char → Option (List Char)
  | [] => if prefixOfB needle [] then some [] else none
  | hay@(_ :: rest) =>
    if prefixOfB needle hay then some (hay.drop needle.length)
    else afterFirst needle rest

/-- `std::stoi`: skip leading spaces, optional sign, then a non-empty run
of digits (further characters are ignored); `none` models the
`std::invalid_argument` thrown when no digits are found. -/
def stoi? (s : List Char) : Option ℤ :=
  let s1 := s.dropWhile (fun c => c == ' ' || c == '\t' || c == '\n')
  match s1 with
  | '-' :: rest => (digits rest).map (fun n => -(n : ℤ))
  | '+' :: rest => (digits rest).map (fun n => (n : ℤ))
  | rest => (digits rest).map (fun n => (n : ℤ))
where
  digits (cs : List Char) : Option ℕ :=
    let ds := cs.takeWhile Char.isDigit
    if ds.isEmpty then none
    else some (ds.foldl (fun acc c => 10 * acc + (c.toNat - 48)) 0)

/-! ### `Executor::evaluate_condition` (`executor.cpp:40-74`) -/

/-- The `age > 25` branch body: read int column `age`, pass iff `> 25`;
any failure is absorbed (`return false`). -/
def ageGtTest (row : Row) (schema : TableSchema) : Bool :=
  match schema.get_column_index "age" with
  | none => false
  | some i =>
    match row.getInt i with
    | none => false
    | some age => decide (25 < age)

/-- The `age < 30` branch body. -/
def ageLtTest (row : Row) (schema : TableSchema) : Bool :=
  match schema.get_column_index "age" with
  | none => false
  | some i =>
    match row.getInt i with
    | none => false
    | some age => decide (age < 30)

/-- The `id = N` branch body: `N` is parsed from the text after the first
`"= "`; read int column `id`, pass iff equal; failures absorbed. -/
def idEqTest (condition : String) (row : Row) (schema : TableSchema) : Bool :=
  match afterFirst "= ".toList condition.toList with
  | none => false
  | some idStr =>
    match schema.get_column_index "id", stoi? idStr with
    | some i, some target =>
      match row.getInt i with
      | none => false
      | some id => decide (id = target)
    | _, _ => false

/-- `Executor::evaluate_condition`: a bounded recognizer of the demo
predicates, tried in a fixed order; an unrecognized condition passes every
row. -/
def evaluate_condition (row : Row) (schema : TableSchema) (condition : String) : Bool :=
  if hasSub condition "age > 25" then ageGtTest row schema
  else if hasSub condition "age < 30" then ageLtTest row schema
  else if hasSub condition "id = " then idEqTest condition row schema
  else true

/-! ### Plan trees (`query_plan.h`)

`FilterNode`/`ProjectNode` own exactly one child and the join nodes own
exactly two; the plan builder establishes this arity invariant for every
plan it produces, so the embedding makes the arity part of the type and the
C++ guards for missing children (`throw`/default `CostEstimate()`) have no
counterpart. -/

/-- The join algorithm tag (`PlanNodeType::{NESTED_LOOP,HASH,SORT_MERGE}_JOIN`). -/
inductive JoinAlg where
  | nestedLoop
  | hash
  | sortMerge
deriving DecidableEq

/-- Physical plan trees over the operator set the optimizer emits. -/
inductive PlanNode where
  | tableScan (table_name : String)
  | filter (condition : String) (child : PlanNode)
  | project (projection_list : List String) (child : PlanNode)
  | join (alg : JoinAlg) (join_condition : String) (left right : PlanNode)
deriving DecidableEq

/-! ### The executor (`executor.cpp`) -/

/-- Fatal executor errors (`std::runtime_error` in `executor.cpp`). -/
inductive ExecError where
  | tableNotFound (t : String)
deriving DecidableEq

/-- `ResultSet` (`executor.h`): a schema and materialized rows. -/
structure ResultSet where
  schema : TableSchema
  rows : List Row
deriving DecidableEq

/-- Join output schema: left schema with every right column appended
(identical in all three join operators). -/
def joinSchema (l r : TableSchema) : TableSchema :=
  ⟨l.column_names ++ r.column_names, l.column_types ++ r.column_types⟩

/-- One concatenated output row of a join. -/
def joinRow (l r : Row) : Row := ⟨l.values ++ r.values⟩

/-- `Executor::execute_nested_loop_join` row production: the full
Cartesian product, no condition evaluation. -/
def nestedLoopRows (L R : List Row) : List Row :=
  L.flatMap (fun l => R.map (fun r => joinRow l r))

/-- One probe of the hash join: the left rows matching the right row's key
(integer at column 1), in left-insertion order.  The `unordered_map`
bucket for key `k` holds exactly the left rows whose column-0 integer read
succeeded with value `k`, in insertion order, which is `L.filter`. -/
def hashProbe (L : List Row) (r : Row) : List Row :=
  match r.getInt 1 with
  | none => []
  | some k => (L.filter (fun l => decide (l.getInt 0 = some k))).map (fun l => joinRow l r)

/-- `Executor::execute_hash_join` row production: probe with every right
row in order; rows whose key extraction throws are skipped. -/
def hashJoinRows (L R : List Row) : List Row := R.flatMap (hashProbe L)

/-- The sort comparator of `execute_sort_merge_join` for the given key
extractor: strictly less on successfully extracted keys, `false` (the
`catch` branch) whenever either extraction fails. -/
def cmpKey (key : Row → Option ℤ) (a b : Row) : Bool :=
  match key a, key b with
  | some x, some y => decide (x < y)
  | _, _ => false

/-- Insert one element into a run already ordered for `cmp`. -/
def insertRow (cmp : Row → Row → Bool) (a : Row) : List Row → List Row
  | [] => [a]
  | b :: bs => if cmp a b then a :: b :: bs else b :: insertRow cmp a bs

/-- Model of the `std::sort` calls in `execute_sort_merge_join`.
`std::sort` guarantees a permutation of the input that is sorted for the
strict-weak comparator (it is unstable, so the order of tie rows is
unspecified); insertion sort realizes that postcondition, and every
property proved about the sort below depends only on the postcondition. -/
def sortRows (cmp : Row → Row → Bool) : List Row → List Row
  | [] => []
  | a :: as => insertRow cmp a (sortRows cmp as)

/-- The merge loop of `execute_sort_merge_join` (`executor.cpp:270-292`):
on equal keys emit one pair and advance the right cursor only; on
`left < right` advance left; on `left > right` advance right; if either
key extraction throws, the `catch` advances the left cursor. -/
def smjMerge : List Row → List Row → List Row
  | [], _ => []
  | _, [] => []
  | l :: ls, r :: rs =>
    match l.getInt 0, r.getInt 1 with
    | some lk, some rk =>
      if lk = rk then joinRow l r :: smjMerge (l :: ls) rs
      else if lk < rk then smjMerge ls (r :: rs)
      else smjMerge (l :: ls) rs
    | _, _ => smjMerge ls (r :: rs)
termination_by l r => l.length + r.length

/-- `Executor::execute_sort_merge_join` row production. -/
def sortMergeRows (L R : List Row) : List Row :=
  smjMerge (sortRows (cmpKey (fun r => r.getInt 0)) L)
           (sortRows (cmpKey (fun r => r.getInt 1)) R)

/-- `Executor::parse_projections`: drop `"*"` items and strip everything
up to and including the first `'.'` from each remaining item. -/
def parse_projections (projections : List String) : List String :=
  projections.filterMap fun proj =>
    if proj = "*" then none
    else
      match proj.toList.dropWhile (fun c => c ≠ '.') with
      | [] => some proj
      | _ :: rest => some ⟨rest⟩

/-- `Executor::execute_project` on a child result, non-wildcard path:
projections that do not resolve are dropped; each surviving index is read
from each row when in range. -/
def projectResult (ps : List String) (rs : ResultSet) : ResultSet :=
  let cols := parse_projections ps
  let resolved := cols.filterMap fun c => (rs.schema.get_column_index c).map (fun i => (c, i))
  let schema : TableSchema :=
    ⟨resolved.map Prod.fst,
     resolved.map (fun ci => rs.schema.column_types.getD ci.2 "")⟩
  ⟨schema, rs.rows.map (fun r => ⟨resolved.filterMap (fun ci => r.values[ci.2]?)⟩)⟩

/-- `Executor::execute` (`executor.cpp`): single-threaded, materializing
interpreter of a plan tree against a catalog. -/
def execute (tm : List (String × Table)) : PlanNode → Except ExecError ResultSet
  | PlanNode.tableScan t =>
    match lookupTable tm t with
    | none => Except.error (ExecError.tableNotFound t)
    | some tbl => Except.ok ⟨tbl.schema, tbl.rows⟩
  | PlanNode.filter c ch =>
    match execute tm ch with
    | Except.error e => Except.error e
    | Except.ok rs =>
      Except.ok ⟨rs.schema, rs.rows.filter (fun r => evaluate_condition r rs.schema c)⟩
  | PlanNode.project ps ch =>
    match execute tm ch with
    | Except.error e => Except.error e
    | Except.ok rs =>
      if ps = ["*"] then Except.ok rs
      else Except.ok (projectResult ps rs)
  | PlanNode.join alg _ l r =>
    match execute tm l, execute tm r with
    | Except.error e, _ => Except.error e
    | Except.ok _, Except.error e => Except.error e
    | Except.ok lrs, Except.ok rrs =>
      let rows :=
        match alg with
        | JoinAlg.nestedLoop => nestedLoopRows lrs.rows rrs.rows
        | JoinAlg.hash => hashJoinRows lrs.rows rrs.rows
        | JoinAlg.sortMerge => sortMergeRows lrs.rows rrs.rows
      Except.ok ⟨joinSchema lrs.schema rrs.schema, rows⟩

/-- Number of rows of a successful execution (`none` on a fatal error). -/
def resultLength? (e : Except ExecError ResultSet) : Option ℕ :=
  match e with
  | Except.ok rs => some rs.rows.length
  | Except.error _ => none

/-- Schema of a successful execution. -/
def resultSchema? (e : Except ExecError ResultSet) : Option TableSchema :=
  match e with
  | Except.ok rs => some rs.schema
  | Except.error _ => none

/-! ### Cost constants (`cost_model.h`, `struct CostConstants`) -/

def SEQUENTIAL_IO_COST : ℚ := 1
def RANDOM_IO_COST : ℚ := 4
def CPU_TUPLE_COST : ℚ := 1 / 100
def CPU_OPERATOR_COST : ℚ := 1 / 400
def MEMORY_SORT_COST : ℚ := 2
def HASH_BUILD_COST : ℚ := 1
def HASH_PROBE_COST : ℚ := 1 / 2

/-- `size_t` arithmetic wraps modulo `2^64`.  The cost model multiplies
(and once adds) `size_t` operands *before* the result meets a `double`
constant, so those spots wrap; a `size_t` operand multiplied directly by
a `double` is converted first and does not. -/
def SIZE_T_WRAP : ℕ := 2 ^ 64

/-- `TableStatistics` (`cost_model.h`).  The `column_selectivity` and
`distinct_values` maps are populated by the `CostModel` constructor but
never consulted by any cost or cardinality computation (those use the
hard-coded recognizers below), so they are omitted from the embedding. -/
structure TableStatistics where
  tuple_count : ℕ
  page_count : ℕ
  tuple_width : ℕ
deriving DecidableEq

/-- The `CostModel.table_stats` map. -/
def lookupStats : List (String × TableStatistics) → String → Option TableStatistics
  | [], _ => none
  | (n, s) :: rest, name => if n = name then some s else lookupStats rest name

/-- The statistics seeded by both the `CostModel` constructor
(`cost_model.cpp:5-20`) and the `QueryOptimizer` constructor
(`optimizer.cpp:5-8`): `users` (1000 tuples, 10 pages, width 120) and
`orders` (5000 tuples, 50 pages, width 80). -/
def sampleStats : List (String × TableStatistics) :=
  [("users", ⟨1000, 10, 120⟩), ("orders", ⟨5000, 50, 80⟩)]

/-- `CostModel::estimate_sort_cost` (`cost_model.cpp:48-51`), with
`log2_safe` abstracted into the parameter `l2` (for `tuple_count ≤ 1` the
guard returns `0` before `l2` is consulted, mirroring both the early
return and `log2_safe`). -/
def estimate_sort_cost (l2 : ℕ → ℚ) (tuple_count : ℕ) : ℚ :=
  if tuple_count ≤ 1 then 0
  else (tuple_count : ℚ) * l2 tuple_count * CPU_OPERATOR_COST * MEMORY_SORT_COST

/-- The filter-selectivity recognizer inside
`CostModel::estimate_output_cardinality` (`cost_model.cpp:161-166`). -/
def filterSelectivity (condition : String) : ℚ :=
  if hasSub condition "age > 25" then 88 / 100
  else if hasSub condition "age < 30" then 20 / 100
  else 1 / 10

/-- `CostModel::estimate_join_selectivity` (`cost_model.cpp:99-106`). -/
def estimate_join_selectivity (condition : String) : ℚ :=
  if hasSub condition "=" then 1 / 10
  else if hasSub condition ">" || hasSub condition "<" then 33 / 100
  else 1 / 10

/-- `CostModel::estimate_output_cardinality` (`cost_model.cpp:148-192`).
`static_cast<size_t>` of the non-negative products is `Nat.floor`; in the
join branch `left_cardinality * right_cardinality` is a `size_t` product
(wrapping) evaluated before the `double` selectivity is applied. -/
def estimate_output_cardinality (sm : List (String × TableStatistics)) : PlanNode → ℕ
  | PlanNode.tableScan t =>
    match lookupStats sm t with
    | some st => st.tuple_count
    | none => 1000
  | PlanNode.filter c ch =>
    Nat.floor ((estimate_output_cardinality sm ch : ℚ) * filterSelectivity c)
  | PlanNode.project _ ch => estimate_output_cardinality sm ch
  | PlanNode.join _ c l r =>
    Nat.floor (((estimate_output_cardinality sm l *
      estimate_output_cardinality sm r % SIZE_T_WRAP : ℕ) : ℚ) *
        estimate_join_selectivity c)

/-- `CostEstimate` (`query_plan.h:16-23`). -/
structure CostEstimate where
  io_cost : ℚ
  cpu_cost : ℚ
  total_cost : ℚ
deriving DecidableEq

/-- The `CostEstimate(io, cpu)` constructor: `total_cost = io + cpu`. -/
def mkCostEstimate (io cpu : ℚ) : CostEstimate := ⟨io, cpu, io + cpu⟩

/-- `CostModel::estimate_plan_cost` (`cost_model.cpp`), covering the
scan/filter/project/join cases the optimizer emits.  `l2` models
`std::log2` on the sort-merge path; the nested-loop and hash branches use
the derived page counts `max(1, tuples / 100)` (`size_t` division).  The
nested-loop products `left_tuples * right_pages` and
`left_tuples * right_tuples` (`cost_model.cpp:36-37,126`) and the
sort-merge sum `left_tuples + right_tuples` (`cost_model.cpp:56`) are
`size_t` operations and wrap; the hash branch multiplies each `size_t`
operand directly by a `double` constant, which converts first. -/
def estimate_plan_cost (l2 : ℕ → ℚ) (sm : List (String × TableStatistics)) :
    PlanNode → CostEstimate
  | PlanNode.tableScan t =>
    match lookupStats sm t with
    | none => mkCostEstimate 10 1
    | some st =>
      mkCostEstimate ((st.page_count : ℚ) * SEQUENTIAL_IO_COST)
        ((st.tuple_count : ℚ) * CPU_TUPLE_COST)
  | PlanNode.filter _ ch =>
    let child_cost := estimate_plan_cost l2 sm ch
    let input_tuples := estimate_output_cardinality sm ch
    mkCostEstimate child_cost.io_cost
      (child_cost.cpu_cost + (input_tuples : ℚ) * CPU_OPERATOR_COST)
  | PlanNode.project _ ch =>
    let child_cost := estimate_plan_cost l2 sm ch
    let input_tuples := estimate_output_cardinality sm ch
    mkCostEstimate child_cost.io_cost
      (child_cost.cpu_cost + (input_tuples : ℚ) * CPU_OPERATOR_COST * (1 / 2))
  | PlanNode.join alg _ l r =>
    let left_cost := estimate_plan_cost l2 sm l
    let right_cost := estimate_plan_cost l2 sm r
    let left_tuples := estimate_output_cardinality sm l
    let right_tuples := estimate_output_cardinality sm r
    let total_io := left_cost.io_cost + right_cost.io_cost
    let total_cpu := left_cost.cpu_cost + right_cost.cpu_cost
    match alg with
    | JoinAlg.nestedLoop =>
      let right_pages := max 1 (right_tuples / 100)
      let join_cost :=
        ((left_tuples * right_pages % SIZE_T_WRAP : ℕ) : ℚ) * RANDOM_IO_COST +
          ((left_tuples * right_tuples % SIZE_T_WRAP : ℕ) : ℚ) * CPU_OPERATOR_COST
      mkCostEstimate
        (total_io + ((left_tuples * right_pages % SIZE_T_WRAP : ℕ) : ℚ) * RANDOM_IO_COST)
        (total_cpu + join_cost)
    | JoinAlg.hash =>
      let build_tuples := min left_tuples right_tuples
      let probe_tuples := max left_tuples right_tuples
      let build_pages := max 1 (build_tuples / 100)
      let join_cost := (build_tuples : ℚ) * HASH_BUILD_COST +
        (probe_tuples : ℚ) * HASH_PROBE_COST + (build_pages : ℚ) * SEQUENTIAL_IO_COST
      mkCostEstimate total_io (total_cpu + join_cost)
    | JoinAlg.sortMerge =>
      let join_cost := estimate_sort_cost l2 left_tuples + estimate_sort_cost l2 right_tuples +
        (((left_tuples + right_tuples) % SIZE_T_WRAP : ℕ) : ℚ) * CPU_OPERATOR_COST
      mkCostEstimate total_io (total_cpu + join_cost)

/-! ### Plan builder and optimizer (`plan_builder.cpp`, `optimizer.cpp`)

Expressions reach the plan builder only through
`PlanBuilder::expression_to_string`; statements are therefore modelled with
their conditions and select items already rendered to canonical text. -/

/-- A `JoinClause` as the optimizer consumes it: the joined table name and
the rendered join condition. -/
structure JoinClauseM where
  table : String
  condition : String
deriving DecidableEq

/-- A `SelectStatement` as the optimizer consumes it. -/
structure SelectStatementM where
  select_list : List String
  from_table : String
  joins : List JoinClauseM
  where_clause : Option String
deriving DecidableEq

/-- A `QueryOptimizer::PlanCandidate`: the plan (whose `cost` field the
optimizer sets to the same estimate) paired with its cost. -/
structure PlanCandidate where
  plan : PlanNode
  cost : CostEstimate
deriving DecidableEq

/-- The candidate body shared by both loops of `generate_all_plans`:
a join tree, then the WHERE filter if present, then the projection. -/
def finishCandidate (l2 : ℕ → ℚ) (sm : List (String × TableStatistics))
    (stmt : SelectStatementM) (joined : PlanNode) : PlanCandidate :=
  let withFilter :=
    match stmt.where_clause with
    | some w => PlanNode.filter w joined
    | none => joined
  let plan := PlanNode.project stmt.select_list withFilter
  ⟨plan, estimate_plan_cost l2 sm plan⟩

/-- The left-deep join tree of the first loop of `generate_all_plans`
(`optimizer.cpp:53-66`): fold every join clause onto the FROM-table scan. -/
def leftDeepJoin (alg : JoinAlg) (stmt : SelectStatementM) : PlanNode :=
  stmt.joins.foldl
    (fun acc j => PlanNode.join alg j.condition acc (PlanNode.tableScan j.table))
    (PlanNode.tableScan stmt.from_table)

/-- `QueryOptimizer::generate_all_plans` (`optimizer.cpp:44-108`): one
left-deep candidate per algorithm, plus — only when there is exactly one
join clause — one swapped-order candidate per algorithm.  Nothing inside
the C++ `try` blocks can throw (the builder functions are total), so the
`catch` arms are dead. -/
def generate_all_plans (l2 : ℕ → ℚ) (sm : List (String × TableStatistics))
    (stmt : SelectStatementM) : List PlanCandidate :=
  let algs := [JoinAlg.nestedLoop, JoinAlg.hash, JoinAlg.sortMerge]
  let firstLoop := algs.map (fun alg => finishCandidate l2 sm stmt (leftDeepJoin alg stmt))
  let swapped :=
    if stmt.joins.length = 1 then
      algs.map (fun alg =>
        match stmt.joins with
        | [] => finishCandidate l2 sm stmt (leftDeepJoin alg stmt)
        | j :: _ =>
          finishCandidate l2 sm stmt
            (PlanNode.join alg j.condition (PlanNode.tableScan j.table)
              (PlanNode.tableScan stmt.from_table)))
    else []
  firstLoop ++ swapped

/-! ### Fixtures used by the claim statements -/

/-- A single-join statement: the demo join query. -/
def stmtOneJoin : SelectStatementM :=
  ⟨["*"], "users", [⟨"orders", "(users.id = orders.user_id)"⟩], none⟩

/-- A zero-join statement: the demo filtered scan. -/
def stmtNoJoin : SelectStatementM :=
  ⟨["name", "age"], "users", [], some "(age > 25)"⟩

/-- A table with heterogeneous rows: the first row has no `age` cell at
all, the second holds a string where the `age` int should be, the third
is well-typed with `age = 40`. -/
def badTable : Table :=
  ⟨⟨["id", "age"], ["int", "int"]⟩,
   [⟨[Value.vint 1]⟩, ⟨[Value.vint 2, Value.vstr "x"]⟩, ⟨[Value.vint 3, Value.vint 40]⟩]⟩

def badCatalog : List (String × Table) := [("t", badTable)]

/-- A well-typed `users`-shaped row with `age = 40`. -/
def rowAge40 : Row :=
  ⟨[Value.vint 7, Value.vstr "User7", Value.vint 40, Value.vstr "City8"]⟩

/-- The users-orders join candidate the demo cost model prices, for a
given algorithm: scan children over the constructor-seeded statistics. -/
def usersOrdersJoin (alg : JoinAlg) : PlanNode :=
  PlanNode.join alg "(users.id = orders.user_id)"
    (PlanNode.tableScan "users") (PlanNode.tableScan "orders")

/-- Total cost of a users-orders join candidate under `log2` model `l2`. -/
def usersOrdersTotal (l2 : ℕ → ℚ) (alg : JoinAlg) : ℚ :=
  (estimate_plan_cost l2 sampleStats (usersOrdersJoin alg)).total_cost

/-- Sanity bounds every faithful model of `std::log2` satisfies at the two
sample cardinalities: `2^9 = 512 ≤ 1000 ≤ 1024 = 2^10` gives
`9 ≤ log2 1000 ≤ 10`, and `2^12 = 4096 ≤ 5000 ≤ 8192 = 2^13` gives
`12 ≤ log2 5000 ≤ 13`. -/
def Log2Spec (l2 : ℕ → ℚ) : Prop :=
  9 ≤ l2 1000 ∧ l2 1000 ≤ 10 ∧ 12 ≤ l2 5000 ∧ l2 5000 ≤ 13

/-- A concrete rational stand-in for `log2` satisfying `Log2Spec`. -/
def log2Apx : ℕ → ℚ :=
  fun n => if n = 1000 then 10 else if n = 5000 then 13 else 0

/-- Statistics exhibiting the C5 counterexample: 1-tuple and 1000-tuple
inputs, whose cardinality product is exactly the claimed threshold 1000. -/
def smallStats : List (String × TableStatistics) :=
  [("t1", ⟨1, 1, 100⟩), ("t2", ⟨1000, 10, 100⟩)]

/-! ### Small catalog facts -/

theorem usersRows_length : usersRows.length = 1000 := by
  simp [usersRows]

theorem ordersRows_length : ordersRows.length = 5000 := by
  simp [ordersRows]

/-- Executing the sample `users` scan. -/
theorem execute_scan_users :
    execute sampleCatalog (PlanNode.tableScan "users") =
      Except.ok ⟨usersSchema, usersRows⟩ := rfl

/-- Executing the sample `orders` scan. -/
theorem execute_scan_orders :
    execute sampleCatalog (PlanNode.tableScan "orders") =
      Except.ok ⟨ordersSchema, ordersRows⟩ := rfl

/-! ### Claims C2, C9, C6, C8, C7 -/

/-- C2: for every plan node, the cost the model returns (which
`QueryOptimizer::generate_all_plans` writes verbatim into `plan->cost`)
satisfies `total_cost = io_cost + cpu_cost`: every branch of
`estimate_plan_cost` builds its result with the `CostEstimate(io, cpu)`
constructor, which sets `total_cost` to the sum. -/
theorem claim_C2 (l2 : ℕ → ℚ) (sm : List (String × TableStatistics)) (p : PlanNode) :
    (estimate_plan_cost l2 sm p).total_cost =
      (estimate_plan_cost l2 sm p).io_cost + (estimate_plan_cost l2 sm p).cpu_cost := by
  cases p with
  | tableScan t => cases h : lookupStats sm t <;> simp [estimate_plan_cost, h, mkCostEstimate]
  | filter c ch => simp [estimate_plan_cost, mkCostEstimate]
  | project ps ch => simp [estimate_plan_cost, mkCostEstimate]
  | join alg c l r => cases alg <;> simp [estimate_plan_cost, mkCostEstimate]

/-- C9: filtering twice with the same condition produces exactly the
result of filtering once — `evaluate_condition` is a pure function of the
row, the (passed-through) schema and the condition text, and
`execute_filter` keeps precisely the rows satisfying it. -/
theorem claim_C9 (tm : List (String × Table)) (c : String) (S : PlanNode) :
    execute tm (PlanNode.filter c (PlanNode.filter c S)) =
      execute tm (PlanNode.filter c S) := by
  cases h : execute tm S with
  | error e => simp [execute, h]
  | ok rs => simp [execute, h, List.filter_filter]

/-- C6 (amended): `generate_all_plans` returns 6 candidates for a
single-join statement (3 algorithms × 2 orders), but 3 — not 1 — for a
zero-join statement: the per-algorithm loop runs regardless of the join
count, producing one (degenerate, join-free) candidate per algorithm,
and only `optimize()` routes zero-join statements elsewhere. -/
theorem claim_C6 (l2 : ℕ → ℚ) (sm : List (String × TableStatistics))
    (stmt : SelectStatementM) :
    (stmt.joins.length = 1 → (generate_all_plans l2 sm stmt).length = 6) ∧
    (stmt.joins.length = 0 → (generate_all_plans l2 sm stmt).length = 3) := by
  constructor <;> intro h <;> simp [generate_all_plans, h]

theorem claim_C6_witness :
    stmtOneJoin.joins.length = 1 ∧
    (generate_all_plans (fun _ => 0) sampleStats stmtOneJoin).length = 6 ∧
    stmtNoJoin.joins.length = 0 ∧
    (generate_all_plans (fun _ => 0) sampleStats stmtNoJoin).length = 3 :=
  ⟨rfl, (claim_C6 (fun _ => 0) sampleStats stmtOneJoin).1 rfl,
   rfl, (claim_C6 (fun _ => 0) sampleStats stmtNoJoin).2 rfl⟩

/-- C6 counterexample to the claim as stated: on a concrete zero-join
statement `generate_all_plans` returns 3 candidates, not 1. -/
theorem claim_C6_counterexample :
    stmtNoJoin.joins.length = 0 ∧
    (generate_all_plans (fun _ => 0) sampleStats stmtNoJoin).length = 3 ∧
    (generate_all_plans (fun _ => 0) sampleStats stmtNoJoin).length ≠ 1 := by
  refine ⟨rfl, ?_, ?_⟩ <;> simp [generate_all_plans, stmtNoJoin]

/-- C8 (amended): a non-wildcard projection in which no projection
resolves against the child schema is not an error: `execute_project`
drops every unresolvable projection (`catch → continue`), builds an empty
result schema, and emits one empty row per child row. -/
theorem claim_C8 (tm : List (String × Table)) (ps : List String) (ch : PlanNode)
    (rs : ResultSet) (hch : execute tm ch = Except.ok rs) (hw : ps ≠ ["*"])
    (hnone : ∀ c ∈ parse_projections ps, rs.schema.get_column_index c = none) :
    execute tm (PlanNode.project ps ch) =
      Except.ok ⟨⟨[], []⟩, rs.rows.map (fun _ => ⟨[]⟩)⟩ := by
  have hres : (parse_projections ps).filterMap
      (fun c => (rs.schema.get_column_index c).map (fun i => (c, i))) = [] := by
    rw [List.filterMap_eq_nil_iff]
    intro c hc
    rw [hnone c hc]
    rfl
  simp [execute, hch, hw, projectResult, hres]

theorem claim_C8_witness :
    execute sampleCatalog (PlanNode.tableScan "orders") =
      Except.ok ⟨ordersSchema, ordersRows⟩ ∧
    (["nope"] : List String) ≠ ["*"] ∧
    (∀ c ∈ parse_projections ["nope"], ordersSchema.get_column_index c = none) ∧
    execute sampleCatalog (PlanNode.project ["nope"] (PlanNode.tableScan "orders")) =
      Except.ok ⟨⟨[], []⟩, ordersRows.map (fun _ => ⟨[]⟩)⟩ :=
  ⟨rfl, by decide, by decide,
   claim_C8 sampleCatalog ["nope"] (PlanNode.tableScan "orders") ⟨ordersSchema, ordersRows⟩
     rfl (by decide) (by decide)⟩

/-- Shared helper for the C8 counterexample (independent of `claim_C8`):
evaluating the concrete all-unresolvable projection. -/
theorem project_bogus_users :
    execute sampleCatalog (PlanNode.project ["bogus"] (PlanNode.tableScan "users")) =
      Except.ok ⟨⟨[], []⟩, usersRows.map (fun _ => ⟨[]⟩)⟩ := by
  have hres : (parse_projections ["bogus"]).filterMap
      (fun c => (usersSchema.get_column_index c).map (fun i => (c, i))) = [] := by decide
  rw [execute, execute_scan_users]
  simp [projectResult, hres]

/-- C8 counterexample to the claim as stated: the all-unresolvable
projection `["bogus"]` over the `users` scan executes successfully
(returning 1000 empty rows under an empty schema) instead of failing. -/
theorem claim_C8_counterexample :
    execute sampleCatalog (PlanNode.project ["bogus"] (PlanNode.tableScan "users")) =
      Except.ok ⟨⟨[], []⟩, usersRows.map (fun _ => ⟨[]⟩)⟩ ∧
    resultLength? (execute sampleCatalog
      (PlanNode.project ["bogus"] (PlanNode.tableScan "users"))) = some 1000 := by
  refine ⟨project_bogus_users, ?_⟩
  rw [project_bogus_users]
  simp [resultLength?, usersRows_length]

/-- Executing a filter directly over a scan: always a `ResultSet`
containing the recognizer-accepted rows, whatever the rows contain. -/
theorem execute_filter_scan (tm : List (String × Table)) (t : String) (tbl : Table)
    (c : String) (h : lookupTable tm t = some tbl) :
    execute tm (PlanNode.filter c (PlanNode.tableScan t)) =
      Except.ok ⟨tbl.schema, tbl.rows.filter (fun r => evaluate_condition r tbl.schema c)⟩ := by
  simp [execute, h]

/-- C7: per-row soft failures are absorbed.  A filtered scan over any
table in the catalog always succeeds, returning exactly the rows the
recognizer accepts; under an `age` condition a row whose `age` column is
missing or non-int evaluates to `false` (it is dropped, not fatal); and a
hash join over any two successfully executed children always succeeds,
with key-extraction failures merely skipping rows. -/
theorem claim_C7 (tm : List (String × Table)) (t : String) (tbl : Table) (c : String)
    (h : lookupTable tm t = some tbl) :
    (execute tm (PlanNode.filter c (PlanNode.tableScan t)) =
      Except.ok ⟨tbl.schema, tbl.rows.filter (fun r => evaluate_condition r tbl.schema c)⟩) ∧
    (∀ r : Row, hasSub c "age > 25" = true →
      (∀ i, tbl.schema.get_column_index "age" = some i → r.getInt i = none) →
      evaluate_condition r tbl.schema c = false) ∧
    (∀ (cond : String) (l rr : PlanNode) (lrs rrs : ResultSet),
      execute tm l = Except.ok lrs → execute tm rr = Except.ok rrs →
      execute tm (PlanNode.join JoinAlg.hash cond l rr) =
        Except.ok ⟨joinSchema lrs.schema rrs.schema, hashJoinRows lrs.rows rrs.rows⟩) := by
  refine ⟨execute_filter_scan tm t tbl c h, ?_, ?_⟩
  · intro r hsub hbad
    rw [evaluate_condition, if_pos hsub, ageGtTest]
    cases hidx : tbl.schema.get_column_index "age" with
    | none => rfl
    | some i => simp [hbad i hidx]
  · intro cond l rr lrs rrs hl hr
    simp [execute, hl, hr]

theorem claim_C7_witness :
    lookupTable badCatalog "t" = some badTable ∧
    execute badCatalog (PlanNode.filter "age > 25" (PlanNode.tableScan "t")) =
      Except.ok ⟨badTable.schema,
        badTable.rows.filter (fun r => evaluate_condition r badTable.schema "age > 25")⟩ ∧
    resultLength? (execute badCatalog
      (PlanNode.filter "age > 25" (PlanNode.tableScan "t"))) = some 1 :=
  ⟨rfl, (claim_C7 badCatalog "t" badTable "age > 25" rfl).1, by decide⟩

/-! ### Claims C10 and C4 -/

/-- C10: the recognizer's patterns are tried in a fixed priority order —
`"age > 25"`, then `"age < 30"`, then `"id = "` — and only the first
matching pattern determines the row's fate; any further recognized
substrings in the condition are ignored. -/
theorem claim_C10 (r : Row) (s : TableSchema) (c : String) :
    (hasSub c "age > 25" = true → evaluate_condition r s c = ageGtTest r s) ∧
    (hasSub c "age > 25" = false → hasSub c "age < 30" = true →
      evaluate_condition r s c = ageLtTest r s) ∧
    (hasSub c "age > 25" = false → hasSub c "age < 30" = false →
      hasSub c "id = " = true → evaluate_condition r s c = idEqTest c r s) := by
  refine ⟨fun h1 => by rw [evaluate_condition, if_pos h1],
    fun h1 h2 => by rw [evaluate_condition, if_neg (by simp [h1]), if_pos h2],
    fun h1 h2 h3 => by
      rw [evaluate_condition, if_neg (by simp [h1]), if_neg (by simp [h2]), if_pos h3]⟩

/-- Witness for C10 at the conjunction `"age > 25 AND age < 30"`: although
the row fails `age < 30` (age is 40), the condition evaluates to `true`
because only the first recognized pattern is consulted. -/
theorem claim_C10_witness :
    hasSub "age > 25 AND age < 30" "age > 25" = true ∧
    hasSub "age > 25 AND age < 30" "age < 30" = true ∧
    evaluate_condition rowAge40 usersSchema "age > 25 AND age < 30" = true ∧
    ageLtTest rowAge40 usersSchema = false := by
  refine ⟨by decide, by decide, ?_, by decide⟩
  rw [(claim_C10 rowAge40 usersSchema "age > 25 AND age < 30").1 (by decide)]
  decide

/-- Evaluating the recognizer on a sample `users` row under any condition
containing `"age > 25"`: it reads `age = 20 + j % 50` at column 2 and
passes iff `5 < j % 50`. -/
theorem age_pred_eval (c : String) (hc : hasSub c "age > 25" = true) (j : ℕ) :
    evaluate_condition (userRow j) usersSchema c = decide (5 < j % 50) := by
  rw [evaluate_condition, if_pos hc]
  show (match (userRow j).getInt 2 with
    | none => false
    | some age => decide (25 < age)) = decide (5 < j % 50)
  show decide (25 < ((20 + j % 50 : ℕ) : ℤ)) = decide (5 < j % 50)
  rw [decide_eq_decide]
  omega

/-- The sample `users` rows passing an `"age > 25"` condition number 880:
per block of 50 consecutive ids the 6 residues with `age ≤ 25` fail. -/
theorem users_filter_age_length (c : String) (hc : hasSub c "age > 25" = true) :
    (usersRows.filter (fun r => evaluate_condition r usersSchema c)).length = 880 := by
  rw [usersRows, List.filter_map, List.length_map]
  have hcongr : (List.range 1000).filter
        ((fun r => evaluate_condition r usersSchema c) ∘ (fun j => userRow (j + 1))) =
      (List.range 1000).filter (fun j => decide (5 < (j + 1) % 50)) := by
    apply List.filter_congr
    intro j _
    exact age_pred_eval c hc (j + 1)
  rw [hcongr]
  decide

/-- C4 (amended): a filter whose condition contains `"age > 25"` over the
sample `users` scan returns exactly the rows whose `age` column exceeds
25 — but there are 880 such rows, not 900 — and projecting `name, age`
yields the schema `[name:string, age:int]`. -/
theorem claim_C4 (c : String) (hc : hasSub c "age > 25" = true) :
    execute sampleCatalog (PlanNode.filter c (PlanNode.tableScan "users")) =
      Except.ok ⟨usersSchema, usersRows.filter (fun r => evaluate_condition r usersSchema c)⟩ ∧
    usersRows.filter (fun r => evaluate_condition r usersSchema c) =
      usersRows.filter (fun r => ageGtTest r usersSchema) ∧
    (usersRows.filter (fun r => evaluate_condition r usersSchema c)).length = 880 ∧
    resultSchema? (execute sampleCatalog (PlanNode.project ["name", "age"]
        (PlanNode.filter c (PlanNode.tableScan "users")))) =
      some ⟨["name", "age"], ["string", "int"]⟩ := by
  have hflt := execute_filter_scan sampleCatalog "users" ⟨usersSchema, usersRows⟩ c rfl
  refine ⟨hflt, ?_, users_filter_age_length c hc, ?_⟩
  · apply List.filter_congr
    intro r _
    rw [evaluate_condition, if_pos hc]
  · rw [execute, hflt]
    simp [resultSchema?, projectResult]
    decide

theorem claim_C4_witness :
    hasSub "(age > 25)" "age > 25" = true ∧
    (usersRows.filter (fun r => evaluate_condition r usersSchema "(age > 25)")).length = 880 ∧
    resultSchema? (execute sampleCatalog (PlanNode.project ["name", "age"]
        (PlanNode.filter "(age > 25)" (PlanNode.tableScan "users")))) =
      some ⟨["name", "age"], ["string", "int"]⟩ :=
  ⟨by decide, (claim_C4 "(age > 25)" (by decide)).2.2.1,
   (claim_C4 "(age > 25)" (by decide)).2.2.2⟩

/-- C4 counterexample to the claim as stated: the filtered sample scan
returns 880 rows, not 900 (`|{i ∈ 1..1000 : 20 + (i % 50) > 25}| = 880`,
since the 6 residues `0..5` of each block of 50 fail). -/
theorem claim_C4_counterexample :
    resultLength? (execute sampleCatalog
      (PlanNode.filter "age > 25" (PlanNode.tableScan "users"))) = some 880 ∧
    resultLength? (execute sampleCatalog
      (PlanNode.filter "age > 25" (PlanNode.tableScan "users"))) ≠ some 900 := by
  have hflt := execute_filter_scan sampleCatalog "users" ⟨usersSchema, usersRows⟩ "age > 25" rfl
  have hlen := users_filter_age_length "age > 25" (by decide)
  rw [hflt]
  simp [resultLength?, hlen]

/-! ### Claims C1 and C5 (cost-model orderings) -/

theorem usersOrdersTotal_hash (l2 : ℕ → ℚ) : usersOrdersTotal l2 JoinAlg.hash = 3630 := by
  simp [usersOrdersTotal, usersOrdersJoin, estimate_plan_cost, estimate_output_cardinality,
    lookupStats, sampleStats, mkCostEstimate, SEQUENTIAL_IO_COST, CPU_TUPLE_COST,
    HASH_BUILD_COST, HASH_PROBE_COST]
  norm_num

theorem usersOrdersTotal_nlj (l2 : ℕ → ℚ) :
    usersOrdersTotal l2 JoinAlg.nestedLoop = 412620 := by
  simp [usersOrdersTotal, usersOrdersJoin, estimate_plan_cost, estimate_output_cardinality,
    lookupStats, sampleStats, mkCostEstimate, SEQUENTIAL_IO_COST, CPU_TUPLE_COST,
    RANDOM_IO_COST, CPU_OPERATOR_COST, SIZE_T_WRAP]
  norm_num

theorem usersOrdersTotal_smj (l2 : ℕ → ℚ) :
    usersOrdersTotal l2 JoinAlg.sortMerge = 135 + 5 * l2 1000 + 25 * l2 5000 := by
  simp [usersOrdersTotal, usersOrdersJoin, estimate_plan_cost, estimate_output_cardinality,
    lookupStats, sampleStats, mkCostEstimate, SEQUENTIAL_IO_COST, CPU_TUPLE_COST,
    CPU_OPERATOR_COST, MEMORY_SORT_COST, estimate_sort_cost, SIZE_T_WRAP]
  ring

/-- C1 (amended): on the sample statistics the total costs are ordered
`SortMergeJoin < HashJoin < NestedLoopJoin` — not
`HashJoin < SortMergeJoin < NestedLoopJoin` as claimed.  With users=1000
and orders=5000 the hash join prices at 3630 while the sort-merge join
prices at `135 + 5·log2(1000) + 25·log2(5000) < 510`. -/
theorem claim_C1 (l2 : ℕ → ℚ) (h : Log2Spec l2) :
    usersOrdersTotal l2 JoinAlg.sortMerge < usersOrdersTotal l2 JoinAlg.hash ∧
    usersOrdersTotal l2 JoinAlg.hash < usersOrdersTotal l2 JoinAlg.nestedLoop := by
  obtain ⟨h1, h2, h3, h4⟩ := h
  rw [usersOrdersTotal_smj, usersOrdersTotal_hash, usersOrdersTotal_nlj]
  constructor <;> linarith

theorem claim_C1_witness :
    Log2Spec log2Apx ∧
    usersOrdersTotal log2Apx JoinAlg.sortMerge < usersOrdersTotal log2Apx JoinAlg.hash ∧
    usersOrdersTotal log2Apx JoinAlg.hash < usersOrdersTotal log2Apx JoinAlg.nestedLoop :=
  ⟨⟨by decide, by decide, by decide, by decide⟩,
   claim_C1 log2Apx ⟨by decide, by decide, by decide, by decide⟩⟩

/-- C1 counterexample to the claim as stated: under any `Log2Spec`-sound
`log2` (here the concrete `log2Apx`), the hash join's total cost (3630)
is not below the sort-merge join's total cost (≤ 510), so the claimed
ordering `HashJoin < SortMergeJoin` fails on the sample statistics. -/
theorem claim_C1_counterexample :
    Log2Spec log2Apx ∧
    ¬ (usersOrdersTotal log2Apx JoinAlg.hash < usersOrdersTotal log2Apx JoinAlg.sortMerge) := by
  refine ⟨⟨by decide, by decide, by decide, by decide⟩, ?_⟩
  rw [usersOrdersTotal_smj, usersOrdersTotal_hash]
  norm_num [log2Apx]

/-- When the divisor lower bound holds, the `max 1` guard is inert. -/
theorem max_one_div100 (n : ℕ) (h : 100 ≤ n) : max 1 (n / 100) = n / 100 := by
  have h1 : 1 ≤ n / 100 := (Nat.one_le_div_iff (by norm_num)).mpr h
  omega

/-- Rational upper bound on the `size_t` division by 100. -/
theorem natDiv100_le (n : ℕ) : ((n / 100 : ℕ) : ℚ) ≤ (n : ℚ) / 100 := by
  have := Nat.cast_div_le (α := ℚ) (m := n) (n := 100)
  simpa using this

/-- Rational lower bound on the `size_t` division by 100 for `n ≥ 100`. -/
theorem natDiv100_ge (n : ℕ) (h : 100 ≤ n) : (n : ℚ) / 200 ≤ ((n / 100 : ℕ) : ℚ) := by
  have h1 : 1 ≤ n / 100 := (Nat.one_le_div_iff (by norm_num)).mpr h
  have h2 : n ≤ 200 * (n / 100) := by omega
  have h2q : (n : ℚ) ≤ 200 * ((n / 100 : ℕ) : ℚ) := by exact_mod_cast h2
  linarith

/-- C5 (amended): for join inputs whose estimated cardinalities are both
at least 100 and whose product stays below `2^64` (so none of the
nested-loop branch's `size_t` products wraps), the cost model prices the
hash join strictly below the nested-loop join.  (The claimed hypothesis
`L.tuples × R.tuples ≥ 1000` is not sufficient — see the counterexample —
and without the overflow guard the wrapped nested-loop products can
collapse to 0 at huge statistics.)  The child costs enter both candidates
identically and cancel; the comparison reduces to
`min + max/2 + buildPages < 8·L·rightPages + L·R/400`. -/
theorem claim_C5 (l2 : ℕ → ℚ) (sm : List (String × TableStatistics)) (cond : String)
    (l r : PlanNode)
    (ha : 100 ≤ estimate_output_cardinality sm l)
    (hb : 100 ≤ estimate_output_cardinality sm r)
    (hw : estimate_output_cardinality sm l * estimate_output_cardinality sm r <
      SIZE_T_WRAP) :
    (estimate_plan_cost l2 sm (PlanNode.join JoinAlg.hash cond l r)).total_cost <
      (estimate_plan_cost l2 sm (PlanNode.join JoinAlg.nestedLoop cond l r)).total_cost := by
  have hm : 100 ≤ min (estimate_output_cardinality sm l) (estimate_output_cardinality sm r) :=
    le_min ha hb
  set a := estimate_output_cardinality sm l with hA
  set b := estimate_output_cardinality sm r with hB
  have hrp_le : max 1 (b / 100) ≤ b := by
    have hdb : b / 100 ≤ b := Nat.div_le_self b 100
    omega
  have hw1 : a * max 1 (b / 100) < SIZE_T_WRAP :=
    lt_of_le_of_lt (Nat.mul_le_mul (le_refl a) hrp_le) hw
  have hm1 : a * max 1 (b / 100) % SIZE_T_WRAP = a * max 1 (b / 100) := Nat.mod_eq_of_lt hw1
  have hm2 : a * b % SIZE_T_WRAP = a * b := Nat.mod_eq_of_lt hw
  set m := min a b with hMn
  set M := max a b with hMx
  have hM : 100 ≤ M := le_trans ha (le_max_left _ _)
  have hmM : m ≤ M := min_le_max
  have hmMq : (m : ℚ) ≤ (M : ℚ) := by exact_mod_cast hmM
  have hmq : (100 : ℚ) ≤ (m : ℚ) := by exact_mod_cast hm
  have hMq : (100 : ℚ) ≤ (M : ℚ) := by exact_mod_cast hM
  have hab : (a : ℚ) * (b : ℚ) = (m : ℚ) * (M : ℚ) := by
    rcases le_total a b with h | h
    · rw [hMn, hMx, min_eq_left h, max_eq_right h]
    · rw [hMn, hMx, min_eq_right h, max_eq_left h]
      ring
  have hbp : ((max 1 (m / 100) : ℕ) : ℚ) ≤ (m : ℚ) / 100 := by
    rw [max_one_div100 m hm]
    exact natDiv100_le m
  have hrp : (b : ℚ) / 200 ≤ ((max 1 (b / 100) : ℕ) : ℚ) := by
    rw [max_one_div100 b hb]
    exact natDiv100_ge b hb
  have haq : (100 : ℚ) ≤ (a : ℚ) := by exact_mod_cast ha
  have key : (m : ℚ) * HASH_BUILD_COST + (M : ℚ) * HASH_PROBE_COST +
      ((max 1 (m / 100) : ℕ) : ℚ) * SEQUENTIAL_IO_COST <
      2 * ((a : ℚ) * ((max 1 (b / 100) : ℕ) : ℚ) * RANDOM_IO_COST) +
        (a : ℚ) * (b : ℚ) * CPU_OPERATOR_COST := by
    rw [HASH_BUILD_COST, HASH_PROBE_COST, SEQUENTIAL_IO_COST, RANDOM_IO_COST, CPU_OPERATOR_COST]
    have e1 : (m : ℚ) * 1 + (M : ℚ) * (1 / 2) + ((max 1 (m / 100) : ℕ) : ℚ) * 1 ≤
        (151 / 100) * (M : ℚ) := by linarith
    have h8 : (a : ℚ) * (b : ℚ) / 200 ≤ (a : ℚ) * ((max 1 (b / 100) : ℕ) : ℚ) :=
      calc (a : ℚ) * (b : ℚ) / 200 = (a : ℚ) * ((b : ℚ) / 200) := by ring
        _ ≤ _ := mul_le_mul_of_nonneg_left hrp (by positivity)
    have habn : (0 : ℚ) ≤ (a : ℚ) * (b : ℚ) := by positivity
    have e2 : (m : ℚ) * (M : ℚ) / 25 ≤
        2 * ((a : ℚ) * ((max 1 (b / 100) : ℕ) : ℚ) * 4) + (a : ℚ) * (b : ℚ) * (1 / 400) := by
      rw [← hab]
      linarith
    have e3 : (151 / 100) * (M : ℚ) < (m : ℚ) * (M : ℚ) / 25 := by
      have h100 : 100 * (M : ℚ) ≤ (m : ℚ) * (M : ℚ) :=
        mul_le_mul_of_nonneg_right hmq (by positivity)
      linarith
    linarith
  simp only [estimate_plan_cost, mkCostEstimate, ← hA, ← hB, ← hMn, ← hMx]
  rw [hm1, hm2]
  simp only [Nat.cast_mul]
  linarith [key]

theorem claim_C5_witness :
    100 ≤ estimate_output_cardinality sampleStats (PlanNode.tableScan "users") ∧
    100 ≤ estimate_output_cardinality sampleStats (PlanNode.tableScan "orders") ∧
    estimate_output_cardinality sampleStats (PlanNode.tableScan "users") *
      estimate_output_cardinality sampleStats (PlanNode.tableScan "orders") <
        SIZE_T_WRAP ∧
    (estimate_plan_cost (fun _ => 0) sampleStats
        (PlanNode.join JoinAlg.hash "(users.id = orders.user_id)"
          (PlanNode.tableScan "users") (PlanNode.tableScan "orders"))).total_cost <
      (estimate_plan_cost (fun _ => 0) sampleStats
        (PlanNode.join JoinAlg.nestedLoop "(users.id = orders.user_id)"
          (PlanNode.tableScan "users") (PlanNode.tableScan "orders"))).total_cost :=
  ⟨by decide, by decide, by decide,
   claim_C5 (fun _ => 0) sampleStats "(users.id = orders.user_id)"
     (PlanNode.tableScan "users") (PlanNode.tableScan "orders")
     (by decide) (by decide) (by decide)⟩

/-- C5 counterexample to the claim as stated: with `L.tuples = 1` and
`R.tuples = 1000` the product is exactly 1000, yet the hash join
(build 1, probe 1000: cost ≈ 502 over the shared base) prices strictly
above the nested-loop join (1 outer tuple: ≈ 82.5 over the base). -/
theorem claim_C5_counterexample :
    1000 ≤ estimate_output_cardinality smallStats (PlanNode.tableScan "t1") *
      estimate_output_cardinality smallStats (PlanNode.tableScan "t2") ∧
    ¬ ((estimate_plan_cost (fun _ => 0) smallStats
        (PlanNode.join JoinAlg.hash "(t1.a = t2.b)"
          (PlanNode.tableScan "t1") (PlanNode.tableScan "t2"))).total_cost <
      (estimate_plan_cost (fun _ => 0) smallStats
        (PlanNode.join JoinAlg.nestedLoop "(t1.a = t2.b)"
          (PlanNode.tableScan "t1") (PlanNode.tableScan "t2"))).total_cost) := by
  refine ⟨by decide, ?_⟩
  simp [estimate_plan_cost, estimate_output_cardinality, lookupStats, smallStats,
    mkCostEstimate, SEQUENTIAL_IO_COST, RANDOM_IO_COST, CPU_TUPLE_COST, CPU_OPERATOR_COST,
    HASH_BUILD_COST, HASH_PROBE_COST, SIZE_T_WRAP]
  norm_num

/-! ### Claim C3: join output sizes on the sample data

The hash join builds on the left column-0 key and probes with the right
column-1 key; on the sample data the left keys are the distinct user ids
`1..1000` and every order's `user_id` hits exactly one of them. -/

/-- The hash-join build key of a sample `users` row is its id. -/
theorem userRow_key (i : ℕ) : (userRow i).getInt 0 = some (i : ℤ) := rfl

/-- The probe key of a sample `orders` row is its `user_id`. -/
theorem orderRow_key (i : ℕ) : (orderRow i).getInt 1 = some ((i % 1000 + 1 : ℕ) : ℤ) := rfl

theorem sum_map_const {α : Type} (l : List α) (c : ℕ) :
    (l.map (fun _ => c)).sum = l.length * c := by
  induction l with
  | nil => simp
  | cons a as ih => simp [ih, Nat.succ_mul, Nat.add_comm]

/-- The nested-loop operator emits the full Cartesian product. -/
theorem nestedLoopRows_length (L R : List Row) :
    (nestedLoopRows L R).length = L.length * R.length := by
  rw [nestedLoopRows, List.length_flatMap]
  have h : L.map (List.length ∘ fun l => R.map (joinRow l)) = L.map (fun _ => R.length) :=
    List.map_congr_left (fun l _ => by simp)
  rw [h, sum_map_const]

theorem count_range_one (n m : ℕ) (h : m < n) :
    ((List.range n).filter (fun j => decide (j = m))).length = 1 := by
  induction n with
  | zero => omega
  | succ k ih =>
    rw [List.range_succ, List.filter_append, List.length_append]
    rcases Nat.lt_or_ge m k with h2 | h2
    · have hkm : k ≠ m := by omega
      have hk : (List.filter (fun j => decide (j = m)) [k]).length = 0 := by simp [hkm]
      rw [ih h2, hk]
    · have hm : m = k := by omega
      subst hm
      have h0 : (List.filter (fun j => decide (j = m)) (List.range m)) = [] := by
        rw [List.filter_eq_nil_iff]
        intro j hj
        have : j < m := List.mem_range.mp hj
        simp
        omega
      rw [h0]
      simp

/-- Exactly one sample user carries build key `m + 1` (for `m < 1000`). -/
theorem users_filter_key (m : ℕ) (hm : m < 1000) :
    (usersRows.filter (fun l => decide (l.getInt 0 = some ((m + 1 : ℕ) : ℤ)))).length = 1 := by
  rw [usersRows, List.filter_map, List.length_map]
  have hpt : ∀ j ∈ List.range 1000,
      ((fun l => decide (l.getInt 0 = some ((m + 1 : ℕ) : ℤ))) ∘ (fun j => userRow (j + 1))) j =
        (fun j => decide (j = m)) j := by
    intro j _
    show decide ((userRow (j + 1)).getInt 0 = some ((m + 1 : ℕ) : ℤ)) = decide (j = m)
    rw [userRow_key, decide_eq_decide]
    simp only [Option.some.injEq]
    omega
  rw [List.filter_congr hpt, count_range_one 1000 m hm]

/-- Every probe of a sample `orders` row returns exactly one joined row. -/
theorem hashProbe_users (j : ℕ) : (hashProbe usersRows (orderRow (j + 1))).length = 1 := by
  show ((usersRows.filter
      (fun l => decide (l.getInt 0 = some (((j + 1) % 1000 + 1 : ℕ) : ℤ)))).map
        (fun l => joinRow l (orderRow (j + 1)))).length = 1
  rw [List.length_map]
  exact users_filter_key ((j + 1) % 1000) (Nat.mod_lt _ (by norm_num))

theorem hashJoinRows_users_orders : (hashJoinRows usersRows ordersRows).length = 5000 := by
  rw [hashJoinRows, List.length_flatMap]
  have h : ordersRows.map (List.length ∘ hashProbe usersRows) = ordersRows.map (fun _ => 1) := by
    apply List.map_congr_left
    intro r hr
    rw [ordersRows] at hr
    obtain ⟨j, _, rfl⟩ := List.mem_map.mp hr
    exact hashProbe_users j
  rw [h, sum_map_const, ordersRows_length]

/-! #### The sort of `execute_sort_merge_join` -/

theorem insertRow_perm (cmp : Row → Row → Bool) (a : Row) (l : List Row) :
    (insertRow cmp a l).Perm (a :: l) := by
  induction l with
  | nil => simp [insertRow]
  | cons b bs ih =>
    rw [insertRow]
    split
    · exact List.Perm.refl _
    · exact (ih.cons b).trans (List.Perm.swap a b bs)

/-- The sort returns a permutation of its input (part of the `std::sort`
postcondition). -/
theorem sortRows_perm (cmp : Row → Row → Bool) (l : List Row) :
    (sortRows cmp l).Perm l := by
  induction l with
  | nil => simp [sortRows]
  | cons a as ih => exact (insertRow_perm cmp a (sortRows cmp as)).trans (ih.cons a)

theorem insertRow_pairwise (cmp : Row → Row → Bool)
    (htrans : ∀ x y z : Row, cmp x y = true → cmp y z = true → cmp x z = true)
    (hasym : ∀ x y : Row, cmp x y = true → cmp y x = false)
    (a : Row) (l : List Row) (hl : l.Pairwise (fun x y => cmp y x = false)) :
    (insertRow cmp a l).Pairwise (fun x y => cmp y x = false) := by
  induction l with
  | nil => simp [insertRow]
  | cons b bs ih =>
    rw [List.pairwise_cons] at hl
    obtain ⟨hb, hbs⟩ := hl
    rw [insertRow]
    split
    · next hab =>
      rw [List.pairwise_cons]
      refine ⟨?_, List.pairwise_cons.mpr ⟨hb, hbs⟩⟩
      intro x hx
      rcases List.mem_cons.mp hx with rfl | hx2
      · exact hasym a x hab
      · cases hcmp : cmp x a with
        | false => rfl
        | true =>
          have hxb := htrans x a b hcmp hab
          rw [hb x hx2] at hxb
          exact absurd hxb (by simp)
    · next hab =>
      rw [List.pairwise_cons]
      refine ⟨?_, ih hbs⟩
      intro x hx
      rcases List.mem_cons.mp ((insertRow_perm cmp a bs).mem_iff.mp hx) with rfl | hx2
      · simpa using hab
      · exact hb x hx2

/-- The sort's output is ordered for the comparator: any earlier element
is not strictly greater (the other part of the `std::sort` postcondition,
for a strict-weak comparator). -/
theorem sortRows_pairwise (cmp : Row → Row → Bool)
    (htrans : ∀ x y z : Row, cmp x y = true → cmp y z = true → cmp x z = true)
    (hasym : ∀ x y : Row, cmp x y = true → cmp y x = false)
    (l : List Row) :
    (sortRows cmp l).Pairwise (fun x y => cmp y x = false) := by
  induction l with
  | nil => simp [sortRows]
  | cons a as ih => exact insertRow_pairwise cmp htrans hasym a _ ih

/-- The executor's key comparator is transitive (failed extractions
compare `false` against everything, which cannot break a chain). -/
theorem cmpKey_trans (key : Row → Option ℤ) (x y z : Row)
    (h1 : cmpKey key x y = true) (h2 : cmpKey key y z = true) :
    cmpKey key x z = true := by
  rcases hx : key x with _ | a <;> rcases hy : key y with _ | b <;>
    rcases hz : key z with _ | c <;>
    simp [cmpKey, hx, hy, hz] at h1 h2 ⊢ <;> omega

/-- The executor's key comparator is asymmetric. -/
theorem cmpKey_asym (key : Row → Option ℤ) (x y : Row) (h : cmpKey key x y = true) :
    cmpKey key y x = false := by
  rcases hx : key x with _ | a <;> rcases hy : key y with _ | b <;>
    simp [cmpKey, hx, hy] at h ⊢ <;> omega

/-- An ordered run whose keys are pairwise distinct is strictly
increasing on extracted keys. -/
theorem sorted_strict (key : Row → Option ℤ) (L : List Row)
    (hsorted : L.Pairwise (fun x y => cmpKey key y x = false))
    (hnodup : (L.map key).Nodup) :
    L.Pairwise (fun x y => ∀ a b : ℤ, key x = some a → key y = some b → a < b) := by
  have hne : L.Pairwise (fun x y => key x ≠ key y) := by
    rw [List.Nodup, List.pairwise_map] at hnodup
    exact hnodup
  refine (hsorted.and hne).imp ?_
  rintro x y ⟨h1, h2⟩ a b ha hb
  simp [cmpKey, ha, hb] at h1
  have h3 : a ≠ b := by
    intro hab
    apply h2
    rw [ha, hb, hab]
  omega

/-- An ordered run is non-decreasing on extracted keys. -/
theorem sorted_le (key : Row → Option ℤ) (R : List Row)
    (hsorted : R.Pairwise (fun x y => cmpKey key y x = false)) :
    R.Pairwise (fun x y => ∀ a b : ℤ, key x = some a → key y = some b → a ≤ b) := by
  refine hsorted.imp ?_
  intro x y h1 a b ha hb
  simp [cmpKey, ha, hb] at h1
  omega

/-- The merge loop emits exactly one row per right-side row when: the
left keys all extract and are strictly increasing, the right keys all
extract and are non-decreasing, and every right key occurs among the left
keys.  (The loop advances only the right cursor on a match, so each right
row is consumed exactly once, and the strictly increasing left side
guarantees its match is never passed over.) -/
theorem smjMerge_length (L R : List Row)
    (hLs : ∀ l ∈ L, (Row.getInt l 0).isSome)
    (hRs : ∀ r ∈ R, (Row.getInt r 1).isSome)
    (hL : L.Pairwise (fun x y => ∀ a b : ℤ, x.getInt 0 = some a → y.getInt 0 = some b → a < b))
    (hR : R.Pairwise (fun x y => ∀ a b : ℤ, x.getInt 1 = some a → y.getInt 1 = some b → a ≤ b))
    (hmem : ∀ r ∈ R, ∀ k : ℤ, r.getInt 1 = some k → ∃ l ∈ L, l.getInt 0 = some k) :
    (smjMerge L R).length = R.length := by
  revert hLs hRs hL hR hmem
  induction L, R using smjMerge.induct with
  | case1 R =>
    intro _ hRs _ _ hmem
    cases R with
    | nil => simp [smjMerge]
    | cons r rs =>
      obtain ⟨k, hk⟩ := Option.isSome_iff_exists.mp (hRs r (List.mem_cons_self r rs))
      obtain ⟨l', hl', _⟩ := hmem r (List.mem_cons_self r rs) k hk
      exact absurd hl' (List.not_mem_nil l')
  | case2 L hne =>
    intro _ _ _ _ _
    cases L with
    | nil => exact absurd rfl hne
    | cons l ls => simp [smjMerge]
  | case3 l ls r rs rk hrk hlk ih =>
    intro hLs hRs hL hR hmem
    have hstep : smjMerge (l :: ls) (r :: rs) = joinRow l r :: smjMerge (l :: ls) rs := by
      rw [smjMerge, hlk, hrk]
      simp
    rw [hstep, List.length_cons, List.length_cons]
    congr 1
    exact ih hLs (fun r' hr' => hRs r' (List.mem_cons_of_mem r hr')) hL
      (List.pairwise_cons.mp hR).2
      (fun r' hr' k hk => hmem r' (List.mem_cons_of_mem r hr') k hk)
  | case4 l ls r rs lk rk hrk hlk hne hlt ih =>
    intro hLs hRs hL hR hmem
    have hstep : smjMerge (l :: ls) (r :: rs) = smjMerge ls (r :: rs) := by
      rw [smjMerge, hlk, hrk]
      simp [hne, hlt]
    rw [hstep]
    refine ih (fun l' hl' => hLs l' (List.mem_cons_of_mem l hl')) hRs
      (List.pairwise_cons.mp hL).2 hR ?_
    intro r' hr' k hk
    obtain ⟨l', hl', hkey⟩ := hmem r' hr' k hk
    rcases List.mem_cons.mp hl' with rfl | hl2
    · exfalso
      rw [hlk] at hkey
      have hkeq : lk = k := Option.some.inj hkey
      rcases List.mem_cons.mp hr' with rfl | hr2
      · rw [hrk] at hk
        have : rk = k := Option.some.inj hk
        omega
      · have := (List.pairwise_cons.mp hR).1 r' hr2 rk k hrk hk
        omega
    · exact ⟨l', hl2, hkey⟩
  | case5 l ls r rs lk rk hrk hlk hne hge ih =>
    intro hLs hRs hL hR hmem
    exfalso
    obtain ⟨l', hl', hkey⟩ := hmem r (List.mem_cons_self r rs) rk hrk
    rcases List.mem_cons.mp hl' with rfl | hl2
    · rw [hlk] at hkey
      have : lk = rk := Option.some.inj hkey
      exact hne this
    · have := (List.pairwise_cons.mp hL).1 l' hl2 lk rk hlk hkey
      omega
  | case6 l ls r rs hno _ =>
    intro hLs hRs hL hR hmem
    exfalso
    obtain ⟨lk, hlk⟩ := Option.isSome_iff_exists.mp (hLs l (List.mem_cons_self l ls))
    obtain ⟨rk, hrk⟩ := Option.isSome_iff_exists.mp (hRs r (List.mem_cons_self r rs))
    exact hno lk rk hlk hrk

theorem usersRows_mem (l : Row) (hl : l ∈ usersRows) :
    ∃ j, j < 1000 ∧ l = userRow (j + 1) := by
  rw [usersRows] at hl
  obtain ⟨j, hj, rfl⟩ := List.mem_map.mp hl
  exact ⟨j, List.mem_range.mp hj, rfl⟩

theorem ordersRows_mem (r : Row) (hr : r ∈ ordersRows) :
    ∃ j, j < 5000 ∧ r = orderRow (j + 1) := by
  rw [ordersRows] at hr
  obtain ⟨j, hj, rfl⟩ := List.mem_map.mp hr
  exact ⟨j, List.mem_range.mp hj, rfl⟩

/-- The sample `users` build keys `1..1000` are pairwise distinct. -/
theorem usersRows_keys_nodup : (usersRows.map (fun r => r.getInt 0)).Nodup := by
  rw [usersRows, List.map_map]
  have heq : ((fun r => Row.getInt r 0) ∘ fun j => userRow (j + 1)) =
      fun j : ℕ => some ((j + 1 : ℕ) : ℤ) := rfl
  rw [heq]
  refine List.Nodup.map ?_ (List.nodup_range 1000)
  intro a b hab
  simp only [Option.some.injEq] at hab
  omega

/-- The sort-merge join over the sample tables also emits exactly one row
per order. -/
theorem sortMergeRows_users_orders :
    (sortMergeRows usersRows ordersRows).length = 5000 := by
  have pL : (sortRows (cmpKey (fun r => r.getInt 0)) usersRows).Perm usersRows :=
    sortRows_perm _ _
  have pR : (sortRows (cmpKey (fun r => r.getInt 1)) ordersRows).Perm ordersRows :=
    sortRows_perm _ _
  have hLs : ∀ l ∈ sortRows (cmpKey (fun r => r.getInt 0)) usersRows,
      (Row.getInt l 0).isSome := by
    intro l hl
    obtain ⟨j, _, rfl⟩ := usersRows_mem l (pL.mem_iff.mp hl)
    rw [userRow_key]
    rfl
  have hRs : ∀ r ∈ sortRows (cmpKey (fun r => r.getInt 1)) ordersRows,
      (Row.getInt r 1).isSome := by
    intro r hr
    obtain ⟨j, _, rfl⟩ := ordersRows_mem r (pR.mem_iff.mp hr)
    rw [orderRow_key]
    rfl
  have hLnodup : ((sortRows (cmpKey (fun r => r.getInt 0)) usersRows).map
      (fun r => r.getInt 0)).Nodup :=
    ((pL.map (fun r => r.getInt 0)).nodup_iff).mpr usersRows_keys_nodup
  have hL := sorted_strict (fun r => r.getInt 0) _
    (sortRows_pairwise (cmpKey (fun r => r.getInt 0))
      (cmpKey_trans (fun r => r.getInt 0)) (cmpKey_asym (fun r => r.getInt 0)) usersRows)
    hLnodup
  have hR := sorted_le (fun r => r.getInt 1) _
    (sortRows_pairwise (cmpKey (fun r => r.getInt 1))
      (cmpKey_trans (fun r => r.getInt 1)) (cmpKey_asym (fun r => r.getInt 1)) ordersRows)
  have hmem : ∀ r ∈ sortRows (cmpKey (fun r => r.getInt 1)) ordersRows, ∀ k : ℤ,
      r.getInt 1 = some k →
      ∃ l ∈ sortRows (cmpKey (fun r => r.getInt 0)) usersRows, l.getInt 0 = some k := by
    intro r hr k hk
    obtain ⟨j, _, rfl⟩ := ordersRows_mem r (pR.mem_iff.mp hr)
    rw [orderRow_key] at hk
    obtain rfl := Option.some.inj hk
    refine ⟨userRow ((j + 1) % 1000 + 1), ?_, userRow_key _⟩
    apply pL.mem_iff.mpr
    rw [usersRows]
    exact List.mem_map.mpr
      ⟨(j + 1) % 1000, List.mem_range.mpr (Nat.mod_lt _ (by norm_num)), rfl⟩
  rw [sortMergeRows, smjMerge_length _ _ hLs hRs hL hR hmem, pR.length_eq, ordersRows_length]

/-- C3: over the sample dataset the hash join and the sort-merge join
each produce exactly 5000 rows (each order matches exactly one user),
while the nested-loop join produces the full Cartesian product of
1000 × 5000 = 5,000,000 rows (it evaluates no predicate). -/
theorem claim_C3 :
    resultLength? (execute sampleCatalog (usersOrdersJoin JoinAlg.hash)) = some 5000 ∧
    resultLength? (execute sampleCatalog (usersOrdersJoin JoinAlg.sortMerge)) = some 5000 ∧
    resultLength? (execute sampleCatalog (usersOrdersJoin JoinAlg.nestedLoop)) =
      some 5000000 := by
  have h : ∀ alg, execute sampleCatalog (usersOrdersJoin alg) =
      Except.ok ⟨joinSchema usersSchema ordersSchema,
        match alg with
        | JoinAlg.nestedLoop => nestedLoopRows usersRows ordersRows
        | JoinAlg.hash => hashJoinRows usersRows ordersRows
        | JoinAlg.sortMerge => sortMergeRows usersRows ordersRows⟩ := by
    intro alg
    rw [usersOrdersJoin, execute, execute_scan_users, execute_scan_orders]
  refine ⟨?_, ?_, ?_⟩ <;> rw [h]
  · simp [resultLength?, hashJoinRows_users_orders]
  · simp [resultLength?, sortMergeRows_users_orders]
  · simp [resultLength?, nestedLoopRows_length, usersRows_length, ordersRows_length]

end QueryOpt
